import Mathlib

/-!
Verification development for the InfluxDB v3 batching sink
(`quixstreams/sinks/core/influxdb3.py`).

The record values handled by the sink are Python dictionaries with string
keys (`InfluxDBValueMap = dict[str, Union[str, int, float, bool]]`).  We
model a Python dict as an ordered association list whose keys are unique
(Python dicts preserve insertion order and cannot hold duplicate keys);
the operations below implement `d[k]`, `k in d`, `d.pop(k)` and
`d[k] = v` under that uniqueness invariant.
-/

set_option autoImplicit false

namespace InfluxSink

/-- A Python scalar value as it appears in the sink's value maps
(strings, integers and booleans; floats are not needed by any claim and
are represented by no constructor since the sink never inspects values). -/
inductive PyVal where
  | str (s : String)
  | int (i : Int)
  | bool (b : Bool)
  deriving DecidableEq, Repr

/-- A Python dict with string keys, as an ordered association list. -/
abbrev AList := List (String × PyVal)

/-- `d[k]` as an option: the value stored at the first occurrence of `k`. -/
def find? : AList → String → Option PyVal
  | [], _ => none
  | (k, v) :: rest, key => if k = key then some v else find? rest key

/-- `k in d`. -/
def keyMem (d : AList) (k : String) : Bool :=
  (find? d k).isSome

/-- Removal of a key from a dict (all occurrences; under the dict
uniqueness invariant there is at most one). -/
def removeKey (d : AList) (k : String) : AList :=
  d.filter (fun kv => kv.1 != k)

/-- `d.pop(k)`: returns the stored value and the dict without `k`;
`none` models the `KeyError` raised when the key is absent. -/
def popKey (d : AList) (k : String) : Option (PyVal × AList) :=
  match find? d k with
  | some v => some (v, removeKey d k)
  | none => none

/-- `d[k] = v`: overwrite in place when the key is present (keeping its
position, as Python dicts do), otherwise append at the end. -/
def setKey (d : AList) (k : String) (v : PyVal) : AList :=
  if keyMem d k then d.map (fun kv => if kv.1 = k then (k, v) else kv)
  else d ++ [(k, v)]

/-- A `measurement`, `fields_keys` or `tags_keys` argument of
`InfluxDB3Sink.__init__`: either a static constant or a single-argument
callable of the record value (`MeasurementSetter`, `FieldsSetter`,
`TagsSetter` in the source). -/
inductive Setter (α : Type) where
  | const (v : α)
  | func (f : AList → α)

/-- `InfluxDB3Sink._measurement_callable`: a callable setter passes
through unchanged, a constant is wrapped in a function ignoring the
input. -/
def measurement_callable (setter : Setter String) : AList → String :=
  match setter with
  | .func f => f
  | .const v => fun _ => v

/-- `InfluxDB3Sink._fields_callable`. -/
def fields_callable (setter : Setter (List String)) : AList → List String :=
  match setter with
  | .func f => f
  | .const v => fun _ => v

/-- `InfluxDB3Sink._tags_callable`. -/
def tags_callable (setter : Setter (List String)) : AList → List String :=
  match setter with
  | .func f => f
  | .const v => fun _ => v

/-- The overlap test of `InfluxDB3Sink.__init__` lines 150-152: only when
neither setter is callable, compute whether the static key sets
intersect (`set(fields_keys) & set(tags_keys)`). -/
def staticOverlap : Setter (List String) → Setter (List String) → Bool
  | .const fk, .const tk => fk.any (fun k => tk.contains k)
  | _, _ => false

/-- The configuration state of a constructed sink that `write` consumes:
the three resolved per-record callables plus the scalar options
(`self._measurement`, `self._fields_keys`, `self._tags_keys`,
`self._time_key`, `self._include_metadata_tags`,
`self._allow_missing_fields`, `self._batch_size`). -/
structure SinkConfig where
  measurement : AList → String
  fields_keys : AList → List String
  tags_keys : AList → List String
  time_key : Option String
  include_metadata_tags : Bool
  allow_missing_fields : Bool
  batch_size : Nat

/-- The validating part of `InfluxDB3Sink.__init__`: reject an invalid
time precision, then reject overlapping static fields/tags key sets, and
otherwise store the resolved configuration.  The connection arguments
play no part in any claim and are omitted. -/
def sinkInit (measurement : Setter String)
    (fields_keys tags_keys : Setter (List String))
    (time_key : Option String) (time_precision : String)
    (allow_missing_fields include_metadata_tags : Bool)
    (batch_size : Nat) : Except String SinkConfig :=
  if ¬ (time_precision ∈ (["ms", "ns", "us", "s"] : List String)) then
    Except.error ("Invalid time_precision argument " ++ time_precision)
  else if staticOverlap fields_keys tags_keys then
    Except.error ("Keys are present in both fields_keys and tags_keys")
  else
    Except.ok
      ⟨measurement_callable measurement, fields_callable fields_keys,
        tags_callable tags_keys, time_key, include_metadata_tags,
        allow_missing_fields, batch_size⟩

/-- Modelled from the spec: an `IncomingRecord` of the batch-accumulation
base (`SinkItem` in `quixstreams.sinks.base`, not part of this snapshot):
"one pipeline record — value (a string-keyed mapping), key, timestamp".
Headers and offset play no part in the sink's write path and are
omitted. -/
structure SinkItem where
  value : AList
  key : PyVal
  timestamp : Int
  deriving DecidableEq, Repr

/-- Modelled from the spec: a `SinkBatch` as `write` consumes it — "an
ordered sequence of IncomingRecord plus batch-level topic/partition
identifiers". -/
structure SinkBatch where
  topic : String
  partition : Int
  items : List SinkItem

/-- The interface of `influxdb_client_3.InfluxDBError` as `write` uses
it: an optional response object carrying an HTTP status, and an optional
integer retry-after value (`exc.response`, `exc.response.status`,
`exc.retry_after`). -/
structure InfluxDBError where
  response : Option Nat
  retry_after : Option Nat
  deriving DecidableEq, Repr

/-- The errors a `write` call can surface: a Python `KeyError` (from
`value.pop`, `value[field_key]` or `value[time_key]`), the
`SinkBackpressureError` raised on a 429 with retry-after (its
`retry_after`, `topic` and `partition` fields as in the source call
site), or a propagated destination `InfluxDBError`. -/
inductive SinkError where
  | keyError (k : String)
  | backpressure (retry_after : Nat) (topic : String) (partition : Int)
  | influx (e : InfluxDBError)
  deriving DecidableEq, Repr

/-- The `except influxdb_client_3.InfluxDBError` clause of `write`
(lines 298-307): when the exception has a response with status 429 and a
retry-after value, raise `SinkBackpressureError(int(retry_after), topic,
partition)`; otherwise re-raise the exception unchanged. -/
def handleWriteError (topic : String) (partition : Int)
    (exc : InfluxDBError) : SinkError :=
  if exc.response.isSome ∧ exc.response = some 429 ∧ exc.retry_after.isSome then
    SinkError.backpressure (exc.retry_after.getD 0) topic partition
  else
    SinkError.influx exc

/-- The tag-extraction loop of `write` (lines 250-257): for each key of
the resolved tag-key iterable, `tag = value.pop(tag_key)` (a missing key
raises `KeyError`) and `tags[tag_key] = tag`.  Returns the accumulated
tags dict and the value dict with the tag keys removed. -/
def popTagsLoop : List String → AList → AList → Except SinkError (AList × AList)
  | [], tags, value => Except.ok (tags, value)
  | k :: ks, tags, value =>
    match popKey value k with
    | none => Except.error (SinkError.keyError k)
    | some (v, value') => popTagsLoop ks (setKey tags k v) value'

/-- The dict comprehension of `write` (lines 264-270) building the field
set when the resolved field-key iterable is non-empty: include
`field_key: value[field_key]` when `(field_key in value or not
allow_missing_fields) and field_key not in _tags_keys`; evaluating
`value[field_key]` on an absent key raises `KeyError`. -/
def buildFields (value : AList) (tagsKeys : List String)
    (allowMissing : Bool) : List String → AList → Except SinkError AList
  | [], acc => Except.ok acc
  | fk :: fks, acc =>
    if (keyMem value fk || !allowMissing) && !(tagsKeys.contains fk) then
      match find? value fk with
      | some v => buildFields value tagsKeys allowMissing fks (setKey acc fk v)
      | none => Except.error (SinkError.keyError fk)
    else
      buildFields value tagsKeys allowMissing fks acc

/-- One destination point: the `record` dict built by `write` (lines
275-280). -/
structure PointRecord where
  measurement : String
  tags : AList
  fields : AList
  time : PyVal
  deriving DecidableEq, Repr

/-- The metadata-tag injection of `write` (lines 259-262): when
`include_metadata_tags` is set, assign `tags["__key"] = item.key`,
`tags["__topic"] = batch.topic` and `tags["__partition"] =
batch.partition` after the user tags have been extracted. -/
def metaTags (includeMeta : Bool) (tags0 : AList) (key : PyVal)
    (topic : String) (partition : Int) : AList :=
  if includeMeta then
    setKey (setKey (setKey tags0 ("__key") key) ("__topic") (PyVal.str topic))
      ("__partition") (PyVal.int partition)
  else tags0

/-- The `fields` expression of `write` (lines 264-273): the dict
comprehension when the resolved field-key iterable is non-empty
(Python truthiness of a list), otherwise the whole remaining value. -/
def fieldsStep (fks tks : List String) (allowMissing : Bool)
    (value' : AList) : Except SinkError AList :=
  if fks.isEmpty then Except.ok value'
  else buildFields value' tks allowMissing fks []

/-- The `ts` expression of `write` (line 274): `value[time_key]` from the
tag-extracted value when a time key is configured (`KeyError` when
absent), else the record's own timestamp. -/
def resolveTime (time_key : Option String) (value' : AList)
    (timestamp : Int) : Except SinkError PyVal :=
  match time_key with
  | none => Except.ok (PyVal.int timestamp)
  | some tk =>
    match find? value' tk with
    | some v => Except.ok v
    | none => Except.error (SinkError.keyError tk)

/-- The per-record body of `write`'s inner loop (lines 243-283): evaluate
the measurement, tag-key and field-key callables on the original value,
pop the tag keys out of the value (which `write` aliases to `item.value`,
so the second component of the result is the state of the record's own
value mapping after the call), optionally inject the metadata tags,
build the field set (the whole remaining value when the resolved
field-key iterable is empty), and resolve the timestamp from `time_key`
or `item.timestamp`. -/
def transformItem (cfg : SinkConfig) (topic : String) (partition : Int)
    (item : SinkItem) : Except SinkError (PointRecord × AList) :=
  match popTagsLoop (cfg.tags_keys item.value) [] item.value with
  | Except.error e => Except.error e
  | Except.ok (tags0, value') =>
    match fieldsStep (cfg.fields_keys item.value) (cfg.tags_keys item.value)
        cfg.allow_missing_fields value' with
    | Except.error e => Except.error e
    | Except.ok fields =>
      match resolveTime cfg.time_key value' item.timestamp with
      | Except.error e => Except.error e
      | Except.ok ts =>
        Except.ok
          (⟨cfg.measurement item.value,
            metaTags cfg.include_metadata_tags tags0 item.key topic partition,
            fields, ts⟩, value')

/-- The `records` accumulation of one chunk: transform every item of the
chunk in order, stopping at the first error, and collect the resulting
points in order. -/
def transformChunk (cfg : SinkConfig) (topic : String) (partition : Int) :
    List SinkItem → Except SinkError (List PointRecord)
  | [] => Except.ok []
  | it :: rest =>
    match transformItem cfg topic partition it with
    | Except.error e => Except.error e
    | Except.ok (r, _) =>
      match transformChunk cfg topic partition rest with
      | Except.error e => Except.error e
      | Except.ok rs => Except.ok (r :: rs)

/-- Modelled from the spec: `SinkBatch.iter_chunks(n)` lives in the
batch-accumulation base, not in this snapshot; the spec says it "splits
the batch into consecutive chunks of at most the configured chunk size
(last chunk may be smaller; a batch smaller than the chunk size produces
exactly one chunk)".  Fuel-based so that it is structurally recursive;
`iterChunks` supplies the list length as fuel, which always suffices. -/
def iterChunksAux {α : Type} : Nat → Nat → List α → List (List α)
  | 0, _, _ => []
  | _ + 1, _, [] => []
  | fuel + 1, n, l =>
    if n = 0 then [l]
    else l.take n :: iterChunksAux fuel n (l.drop n)

/-- Modelled from the spec: see `iterChunksAux`. -/
def iterChunks {α : Type} (n : Nat) (l : List α) : List (List α) :=
  iterChunksAux l.length n l

/-- The list of chunk sizes produced by chunking `len` records with
chunk size `n` (fuel-based companion of `iterChunksAux`). -/
def chunkLensAux : Nat → Nat → Nat → List Nat
  | 0, _, _ => []
  | fuel + 1, n, len =>
    if len = 0 then []
    else if n = 0 then [len]
    else min n len :: chunkLensAux fuel n (len - n)

/-- The list of chunk sizes produced by chunking `len` records with
chunk size `n`. -/
def chunkLens (n len : Nat) : List Nat :=
  chunkLensAux len n len

/-- The chunk loop of `write` (lines 237-307): for each chunk, build the
`records` list, issue one destination write (the `client` argument
models `self._client.write`, returning `none` on success and the raised
`InfluxDBError` on failure), translating a failure through the except
clause; stop at the first failing chunk.  The result collects the
payload of every destination write call issued, in order (the source
returns nothing; the trace is what the claims observe). -/
def writeChunks (cfg : SinkConfig)
    (client : List PointRecord → Option InfluxDBError)
    (topic : String) (partition : Int) :
    List (List SinkItem) → Except SinkError (List (List PointRecord))
  | [] => Except.ok []
  | c :: cs =>
    match transformChunk cfg topic partition c with
    | Except.error e => Except.error e
    | Except.ok records =>
      match client records with
      | some exc => Except.error (handleWriteError topic partition exc)
      | none =>
        match writeChunks cfg client topic partition cs with
        | Except.error e => Except.error e
        | Except.ok traces => Except.ok (records :: traces)

/-- `InfluxDB3Sink.write`: chunk the batch with `iter_chunks(n=self._batch_size)`
and process the chunks in order. -/
def write (cfg : SinkConfig)
    (client : List PointRecord → Option InfluxDBError)
    (b : SinkBatch) : Except SinkError (List (List PointRecord)) :=
  writeChunks cfg client b.topic b.partition (iterChunks cfg.batch_size b.items)

/-- Concrete configuration for evaluating the backpressure claim: static
trivial mappings, batch size 1000. -/
def cfgC1 : SinkConfig :=
  ⟨fun _ => "m", fun _ => [], fun _ => [], none, false, false, 1000⟩

/-- A one-record batch on topic "t", partition 2. -/
def batchC1 : SinkBatch := ⟨"t", 2, [⟨[], PyVal.int 0, 0⟩]⟩

/-- A 429 destination failure carrying retry-after 30. -/
def excC1 : InfluxDBError := ⟨some 429, some 30⟩

/-- A configuration whose dynamic field-key function selects the tag key
"a" as well as "b". -/
def cfgC2 : SinkConfig :=
  ⟨fun _ => "m", fun _ => ["a", "b"], fun _ => ["a"], none, false, false, 1000⟩

/-- A record carrying both "a" and "b". -/
def itemC2 : SinkItem :=
  ⟨[("a", PyVal.int 1), ("b", PyVal.int 2)], PyVal.str ("k"), 7⟩

/-- A configuration whose dynamic field-key function selects exactly the
tag key "a", with the strict missing-field policy. -/
def cfgC3 : SinkConfig :=
  ⟨fun _ => "m", fun _ => ["a"], fun _ => ["a"], none, false, false, 1000⟩

/-- A record carrying only the tag key "a". -/
def itemC3 : SinkItem := ⟨[("a", PyVal.int 1)], PyVal.str ("k"), 7⟩

/-- A strict configuration whose field-key set contains the absent,
non-tag key "x". -/
def cfgC3s : SinkConfig :=
  ⟨fun _ => "m", fun _ => ["x", "b"], fun _ => [], none, false, false, 1000⟩

/-- A record without the key "x". -/
def itemC3s : SinkItem := ⟨[("b", PyVal.int 2)], PyVal.str ("k"), 7⟩

/-- A configuration with the empty static field-key default and tag key
"a". -/
def cfgC4 : SinkConfig :=
  ⟨fun _ => "m", fun _ => [], fun _ => ["a"], none, false, false, 1000⟩

/-- A record carrying "a" and "b". -/
def itemC4 : SinkItem :=
  ⟨[("a", PyVal.int 1), ("b", PyVal.int 2)], PyVal.str ("k"), 7⟩

/-- A trivial configuration with chunk size 2 for the chunking claim. -/
def cfgC5 : SinkConfig :=
  ⟨fun _ => "m", fun _ => [], fun _ => [], none, false, false, 2⟩

/-- A five-record batch, which chunk size 2 splits as 2, 2, 1. -/
def batchC5 : SinkBatch :=
  ⟨"t", 0, List.replicate 5 ⟨[], PyVal.int 0, 0⟩⟩

/-- A configuration whose dynamic field-key function depends on whether
the tag key "a" is still present in the value it is given. -/
def cfgC7a : SinkConfig :=
  ⟨fun _ => "m", fun v => if keyMem v ("a") then ["b"] else ["zz"],
    fun _ => ["a"], none, false, false, 1000⟩

/-- The same configuration with the field-key function statically
returning what `cfgC7a`'s returns on the original record. -/
def cfgC7b : SinkConfig :=
  ⟨fun _ => "m", fun _ => ["b"], fun _ => ["a"], none, false, false, 1000⟩

/-- A record carrying "a" and "b". -/
def itemC7 : SinkItem :=
  ⟨[("a", PyVal.int 1), ("b", PyVal.int 2)], PyVal.str ("k"), 7⟩

/-- A configuration extracting the tag key "a". -/
def cfgC9 : SinkConfig :=
  ⟨fun _ => "m", fun _ => [], fun _ => ["a"], none, false, false, 1000⟩

/-- A record carrying "a" and "b". -/
def itemC9 : SinkItem :=
  ⟨[("a", PyVal.int 1), ("b", PyVal.int 2)], PyVal.str ("k"), 7⟩

/-- A configuration with metadata tags enabled whose user tag-key set
contains the reserved name "__key". -/
def cfgC10 : SinkConfig :=
  ⟨fun _ => "m", fun _ => [], fun _ => ["__key"], none, true, false, 1000⟩

/-- A record whose value carries a user-supplied "__key" tag that the
metadata injection overwrites with the record key. -/
def itemC10 : SinkItem :=
  ⟨[("__key", PyVal.str ("user"))], PyVal.str ("realkey"), 5⟩

theorem find?_removeKey (d : AList) (k k' : String) :
    find? (removeKey d k) k' = if k' = k then none else find? d k' := by
  induction d with
  | nil => simp [removeKey, find?]
  | cons kv rest ih =>
    obtain ⟨k0, v0⟩ := kv
    rw [removeKey, List.filter_cons]
    rw [removeKey] at ih
    by_cases h0 : k0 = k
    · simp only [h0, bne_self_eq_false, Bool.false_eq_true, if_false, ih, find?]
      by_cases h1 : k' = k
      · simp [h1]
      · have h2 : ¬ k = k' := fun hc => h1 hc.symm
        simp [h1, h2, h0]
    · have hhead : (((k0, v0) : String × PyVal).1 != k) = true := by
        simpa using h0
      simp only [hhead, if_true, find?, ih]
      by_cases h1 : k0 = k'
      · have h2 : ¬ k' = k := fun hc => h0 (by rw [h1, hc])
        simp [h1, h2]
      · simp [h1]

theorem find?_mapSet (d : AList) (k : String) (v : PyVal) :
    find? (d.map (fun kv => if kv.1 = k then (k, v) else kv)) k
      = if keyMem d k then some v else none := by
  induction d with
  | nil => simp [keyMem, find?]
  | cons kv rest ih =>
    obtain ⟨k0, v0⟩ := kv
    rw [List.map_cons]
    by_cases h0 : k0 = k
    · subst h0
      rw [show (if (((k0, v0) : String × PyVal)).1 = k0 then (k0, v) else (k0, v0)) = (k0, v) from if_pos rfl]
      simp [find?, keyMem]
    · rw [show (if (((k0, v0) : String × PyVal)).1 = k then (k, v) else (k0, v0)) = (k0, v0) from if_neg h0]
      simp [find?, keyMem, h0] at ih ⊢
      exact ih

theorem find?_mapSet_ne (d : AList) (k k' : String) (v : PyVal) (h : k' ≠ k) :
    find? (d.map (fun kv => if kv.1 = k then (k, v) else kv)) k' = find? d k' := by
  induction d with
  | nil => simp [find?]
  | cons kv rest ih =>
    obtain ⟨k0, v0⟩ := kv
    rw [List.map_cons]
    by_cases h0 : k0 = k
    · have h1 : ¬ k0 = k' := fun hc => h (by rw [← hc, h0])
      have h2 : ¬ k = k' := fun hc => h hc.symm
      rw [if_pos h0]
      simp [find?, h1, h2, ih]
    · rw [if_neg h0]
      simp [find?, ih]

theorem find?_append_single (d : AList) (k k' : String) (v : PyVal) :
    find? (d ++ [(k, v)]) k'
      = if k' = k ∧ keyMem d k' = false then some v else find? d k' := by
  induction d with
  | nil =>
    simp [find?, keyMem]
    by_cases h0 : k = k'
    · simp [h0, find?]
    · have h1 : ¬ k' = k := fun hc => h0 hc.symm
      simp [h0, h1, find?]
  | cons kv rest ih =>
    obtain ⟨k0, v0⟩ := kv
    rw [List.cons_append, find?, find?]
    by_cases h0 : k0 = k'
    · simp [h0, keyMem, find?]
    · simp only [h0, if_false, ih, keyMem, find?]

theorem find?_setKey_self (d : AList) (k : String) (v : PyVal) :
    find? (setKey d k v) k = some v := by
  unfold setKey
  by_cases h : keyMem d k
  · rw [if_pos h, find?_mapSet, if_pos h]
  · rw [if_neg h, find?_append_single]
    simp [h]

theorem find?_setKey_ne (d : AList) (k k' : String) (v : PyVal) (h : k' ≠ k) :
    find? (setKey d k v) k' = find? d k' := by
  unfold setKey
  by_cases hm : keyMem d k
  · rw [if_pos hm, find?_mapSet_ne _ _ _ _ h]
  · rw [if_neg hm, find?_append_single]
    simp [h]


theorem popTagsLoop_find? (ks : List String) :
    ∀ (tags value tg v' : AList),
      popTagsLoop ks tags value = Except.ok (tg, v') →
      ∀ k : String, find? v' k = if k ∈ ks then none else find? value k := by
  induction ks with
  | nil =>
    intro tags value tg v' h k
    rw [popTagsLoop] at h
    cases h
    simp
  | cons k0 ks ih =>
    intro tags value tg v' h k
    rw [popTagsLoop] at h
    cases hpop : popKey value k0 with
    | none => rw [hpop] at h; cases h
    | some pr =>
      obtain ⟨v, value1⟩ := pr
      rw [hpop] at h
      have hv1 : value1 = removeKey value k0 := by
        unfold popKey at hpop
        cases hf : find? value k0 with
        | none => rw [hf] at hpop; cases hpop
        | some v2 => rw [hf] at hpop; cases hpop; rfl
      have hrec := ih _ _ _ _ h k
      rw [hrec, hv1, find?_removeKey]
      by_cases h1 : k ∈ ks
      · simp [h1]
      · by_cases h2 : k = k0
        · simp [h1, h2]
        · simp [h1, h2]

theorem buildFields_tags_none (value : AList) (tks : List String) (am : Bool)
    (fks : List String) :
    ∀ (acc flds : AList),
      buildFields value tks am fks acc = Except.ok flds →
      ∀ k : String, k ∈ tks → find? flds k = find? acc k := by
  induction fks with
  | nil =>
    intro acc flds h k hk
    rw [buildFields] at h
    cases h
    rfl
  | cons fk fks ih =>
    intro acc flds h k hk
    rw [buildFields] at h
    by_cases hc : ((keyMem value fk || !am) && !tks.contains fk) = true
    · rw [if_pos hc] at h
      cases hf : find? value fk with
      | none => rw [hf] at h; cases h
      | some v =>
        rw [hf] at h
        have hfk : fk ≠ k := by
          intro he
          simp at hc
          exact hc.2 (by rw [he]; exact hk)
        rw [ih _ _ h k hk, find?_setKey_ne _ _ _ _ (fun hkk => hfk hkk.symm)]
    · rw [if_neg hc] at h
      exact ih _ _ h k hk

theorem buildFields_missing_strict (value : AList) (tks : List String)
    (fks : List String) (k : String) (hk : k ∈ fks)
    (habs : find? value k = none) (hkt : k ∉ tks) :
    ∀ acc : AList, ∃ k2 : String,
      buildFields value tks false fks acc = Except.error (SinkError.keyError k2) := by
  induction fks with
  | nil => cases hk
  | cons fk fks ih =>
    intro acc
    rw [buildFields]
    by_cases hfk : fk = k
    · subst hfk
      have hc : ((keyMem value fk || !false) && !tks.contains fk) = true := by
        simp
        exact hkt
      rw [if_pos hc, habs]
      exact ⟨fk, rfl⟩
    · have hk2 : k ∈ fks := by
        cases hk with
        | head => exact absurd rfl hfk
        | tail _ h2 => exact h2
      by_cases hc : ((keyMem value fk || !false) && !tks.contains fk) = true
      · rw [if_pos hc]
        cases hf : find? value fk with
        | none => exact ⟨fk, rfl⟩
        | some v => exact ih hk2 _
      · rw [if_neg hc]
        exact ih hk2 _

theorem buildFields_missing_skip (value : AList) (tks : List String)
    (fks : List String) (k : String) (habs : find? value k = none) :
    ∀ (acc flds : AList),
      buildFields value tks true fks acc = Except.ok flds →
      find? flds k = find? acc k := by
  induction fks with
  | nil =>
    intro acc flds h
    rw [buildFields] at h
    cases h
    rfl
  | cons fk fks ih =>
    intro acc flds h
    rw [buildFields] at h
    by_cases hc : ((keyMem value fk || !true) && !tks.contains fk) = true
    · rw [if_pos hc] at h
      cases hf : find? value fk with
      | none => rw [hf] at h; cases h
      | some v =>
        rw [hf] at h
        have hfk : fk ≠ k := by
          intro he
          rw [he, habs] at hf
          cases hf
        rw [ih _ _ h, find?_setKey_ne _ _ _ _ (fun hkk => hfk hkk.symm)]
    · rw [if_neg hc] at h
      exact ih _ _ h

theorem buildFields_keep (value : AList) (tks : List String) (am : Bool)
    (fks : List String) (k : String) (v : PyVal)
    (hv : find? value k = some v) :
    ∀ (acc flds : AList),
      buildFields value tks am fks acc = Except.ok flds →
      find? acc k = some v →
      find? flds k = some v := by
  induction fks with
  | nil =>
    intro acc flds h hacc
    rw [buildFields] at h
    cases h
    exact hacc
  | cons fk fks ih =>
    intro acc flds h hacc
    rw [buildFields] at h
    by_cases hc : ((keyMem value fk || !am) && !tks.contains fk) = true
    · rw [if_pos hc] at h
      cases hf : find? value fk with
      | none => rw [hf] at h; cases h
      | some v0 =>
        rw [hf] at h
        by_cases hfk : fk = k
        · subst hfk
          rw [hv] at hf
          cases hf
          exact ih _ _ h (by rw [find?_setKey_self])
        · exact ih _ _ h
            (by rw [find?_setKey_ne _ _ _ _ (fun hkk => hfk hkk.symm)]; exact hacc)
    · rw [if_neg hc] at h
      exact ih _ _ h hacc

theorem buildFields_present (value : AList) (tks : List String) (am : Bool)
    (fks : List String) (k : String) (v : PyVal)
    (hk : k ∈ fks) (hkt : k ∉ tks) (hv : find? value k = some v) :
    ∀ (acc flds : AList),
      buildFields value tks am fks acc = Except.ok flds →
      find? flds k = some v := by
  induction fks with
  | nil => cases hk
  | cons fk fks ih =>
    intro acc flds h
    rw [buildFields] at h
    by_cases hfk : fk = k
    · subst hfk
      have hc : ((keyMem value fk || !am) && !tks.contains fk) = true := by
        have h1 : keyMem value fk = true := by rw [keyMem, hv]; rfl
        simp [h1]
        exact hkt
      rw [if_pos hc, hv] at h
      exact buildFields_keep value tks am fks fk v hv _ _ h (by rw [find?_setKey_self])
    · have hk2 : k ∈ fks := by
        cases hk with
        | head => exact absurd rfl hfk
        | tail _ h2 => exact h2
      by_cases hc : ((keyMem value fk || !am) && !tks.contains fk) = true
      · rw [if_pos hc] at h
        cases hf : find? value fk with
        | none => rw [hf] at h; cases h
        | some v0 =>
          rw [hf] at h
          exact ih hk2 _ _ h
      · rw [if_neg hc] at h
        exact ih hk2 _ _ h

theorem transformItem_ok (cfg : SinkConfig) (t : String) (p : Int)
    (item : SinkItem) (rec : PointRecord) (v' : AList)
    (h : transformItem cfg t p item = Except.ok (rec, v')) :
    ∃ tg0 : AList,
      popTagsLoop (cfg.tags_keys item.value) [] item.value
          = Except.ok (tg0, v') ∧
      rec.measurement = cfg.measurement item.value ∧
      rec.tags = metaTags cfg.include_metadata_tags tg0 item.key t p ∧
      fieldsStep (cfg.fields_keys item.value) (cfg.tags_keys item.value)
          cfg.allow_missing_fields v' = Except.ok rec.fields ∧
      resolveTime cfg.time_key v' item.timestamp = Except.ok rec.time := by
  rw [transformItem] at h
  cases hpop : popTagsLoop (cfg.tags_keys item.value) [] item.value with
  | error e => rw [hpop] at h; cases h
  | ok pr =>
    obtain ⟨tg0, value1⟩ := pr
    rw [hpop] at h
    dsimp only at h
    cases hfs : fieldsStep (cfg.fields_keys item.value)
        (cfg.tags_keys item.value) cfg.allow_missing_fields value1 with
    | error e => rw [hfs] at h; cases h
    | ok fields =>
      rw [hfs] at h
      dsimp only at h
      cases hts : resolveTime cfg.time_key value1 item.timestamp with
      | error e => rw [hts] at h; cases h
      | ok ts =>
        rw [hts] at h
        dsimp only at h
        injection h with h1
        injection h1 with h2 h3
        subst h3
        rw [← h2]
        exact ⟨tg0, rfl, rfl, rfl, hfs, hts⟩

theorem transformItem_fields_error (cfg : SinkConfig) (t : String) (p : Int)
    (item : SinkItem) (tg0 v0 : AList) (e : SinkError)
    (hpop : popTagsLoop (cfg.tags_keys item.value) [] item.value
        = Except.ok (tg0, v0))
    (hbf : fieldsStep (cfg.fields_keys item.value) (cfg.tags_keys item.value)
        cfg.allow_missing_fields v0 = Except.error e) :
    transformItem cfg t p item = Except.error e := by
  rw [transformItem, hpop]
  dsimp only
  rw [hbf]

theorem transformChunk_ok (cfg : SinkConfig) (t : String) (p : Int)
    (c : List SinkItem)
    (h : ∀ it ∈ c, ∃ pr, transformItem cfg t p it = Except.ok pr) :
    ∃ rs, transformChunk cfg t p c = Except.ok rs ∧ rs.length = c.length := by
  induction c with
  | nil => exact ⟨[], rfl, rfl⟩
  | cons it rest ih =>
    obtain ⟨pr, hpr⟩ := h it (List.mem_cons_self it rest)
    obtain ⟨rs, hrs, hlen⟩ := ih (fun x hx => h x (List.mem_cons_of_mem _ hx))
    obtain ⟨r, v'⟩ := pr
    refine ⟨r :: rs, ?_, by simp [hlen]⟩
    rw [transformChunk, hpr, hrs]

theorem chunkLensAux_zero_len (fuel n : Nat) : chunkLensAux fuel n 0 = [] := by
  cases fuel with
  | zero => rfl
  | succ fuel => rw [chunkLensAux]; simp

theorem iterChunksAux_cons {α : Type} (fuel n : Nat) (x : α) (xs : List α) :
    iterChunksAux (fuel + 1) n (x :: xs) =
      if n = 0 then [x :: xs]
      else (x :: xs).take n :: iterChunksAux fuel n ((x :: xs).drop n) := by
  rfl

theorem iterChunksAux_spec {α : Type} (fuel : Nat) :
    ∀ (n : Nat) (l : List α), l.length ≤ fuel → 0 < n →
      (iterChunksAux fuel n l).flatten = l ∧
      (iterChunksAux fuel n l).map List.length = chunkLensAux fuel n l.length := by
  induction fuel with
  | zero =>
    intro n l hf hn
    have hl : l = [] := List.eq_nil_of_length_eq_zero (Nat.le_zero.mp hf)
    subst hl
    exact ⟨rfl, rfl⟩
  | succ fuel ih =>
    intro n l hf hn
    cases l with
    | nil => exact ⟨rfl, by rw [chunkLensAux]; simp [iterChunksAux]⟩
    | cons x xs =>
      have hn0 : n ≠ 0 := Nat.pos_iff_ne_zero.mp hn
      have hlen : (List.drop n (x :: xs)).length ≤ fuel := by
        rw [List.length_drop]
        have := List.length_cons x xs
        omega
      obtain ⟨hj, hm⟩ := ih n (List.drop n (x :: xs)) hlen hn
      rw [iterChunksAux_cons, if_neg hn0]
      constructor
      · rw [List.flatten_cons, hj]
        exact List.take_append_drop n (x :: xs)
      · rw [List.map_cons, hm, List.length_take, List.length_drop]
        rw [chunkLensAux, if_neg (by simp), if_neg hn0]

theorem chunkLensAux_entries (fuel : Nat) :
    ∀ (n len : Nat), 0 < n → len ≤ fuel →
      (∀ c ∈ chunkLensAux fuel n len, 0 < c ∧ c ≤ n) ∧
      (∀ i : Nat, i + 1 < (chunkLensAux fuel n len).length →
        (chunkLensAux fuel n len)[i]? = some n) := by
  induction fuel with
  | zero =>
    intro n len hn hf
    have : len = 0 := Nat.le_zero.mp hf
    subst this
    constructor
    · intro c hc; cases hc
    · intro i hi; simp [chunkLensAux] at hi
  | succ fuel ih =>
    intro n len hn hf
    by_cases hlen : len = 0
    · subst hlen
      rw [chunkLensAux_zero_len]
      constructor
      · intro c hc; cases hc
      · intro i hi; simp at hi
    · have hn0 : n ≠ 0 := Nat.pos_iff_ne_zero.mp hn
      rw [chunkLensAux, if_neg hlen, if_neg hn0]
      have hrec := ih n (len - n) hn (by omega)
      constructor
      · intro c hc
        cases hc with
        | head => exact ⟨by omega, Nat.min_le_left n len⟩
        | tail _ hc2 => exact hrec.1 c hc2
      · intro i hi
        cases i with
        | zero =>
          rw [List.length_cons] at hi
          have htail : chunkLensAux fuel n (len - n) ≠ [] := by
            intro hnil
            rw [hnil] at hi
            simp at hi
          have hlen2 : len - n ≠ 0 := by
            intro h0
            rw [h0, chunkLensAux_zero_len] at htail
            exact htail rfl
          have : min n len = n := by omega
          simp [this]
        | succ j =>
          rw [List.length_cons] at hi
          have := hrec.2 j (by omega)
          simpa using this

theorem iterChunks_head (n : Nat) (l : List SinkItem) (hn : 0 < n)
    (hl : l ≠ []) :
    ∃ cs, iterChunks n l = l.take n :: cs := by
  cases l with
  | nil => exact absurd rfl hl
  | cons x xs =>
    rw [iterChunks, show (x :: xs).length = xs.length + 1 from rfl,
      iterChunksAux_cons, if_neg (Nat.pos_iff_ne_zero.mp hn)]
    exact ⟨_, rfl⟩

theorem write_client_error (cfg : SinkConfig)
    (client : List PointRecord → Option InfluxDBError) (b : SinkBatch)
    (exc : InfluxDBError)
    (hbs : 0 < cfg.batch_size) (hne : b.items ≠ [])
    (hok : ∀ it ∈ b.items,
      ∃ pr, transformItem cfg b.topic b.partition it = Except.ok pr)
    (hclient : ∀ rs, client rs = some exc) :
    write cfg client b
      = Except.error (handleWriteError b.topic b.partition exc) := by
  obtain ⟨cs, hch⟩ := iterChunks_head cfg.batch_size b.items hbs hne
  obtain ⟨rs, hrs, _⟩ := transformChunk_ok cfg b.topic b.partition
    (b.items.take cfg.batch_size)
    (fun it hit => hok it (List.take_subset _ _ hit))
  rw [write, hch, writeChunks, hrs]
  dsimp only
  rw [hclient rs]

/-- C1: for every write failure raised by the destination client as an
InfluxDB error whose response has HTTP status 429 and which carries a
retry-after value, `InfluxDB3Sink.write` raises a `SinkBackpressureError`
whose retry_after equals the integer retry-after value and whose topic
and partition equal the batch's topic and partition; every other
destination failure propagates unchanged and no backpressure signal is
raised. -/
theorem claim1_backpressure_translation (cfg : SinkConfig)
    (client : List PointRecord → Option InfluxDBError) (b : SinkBatch)
    (exc : InfluxDBError)
    (hbs : 0 < cfg.batch_size) (hne : b.items ≠ [])
    (hok : ∀ it ∈ b.items,
      ∃ pr, transformItem cfg b.topic b.partition it = Except.ok pr)
    (hclient : ∀ rs, client rs = some exc) :
    (∀ n : Nat, exc.response = some 429 → exc.retry_after = some n →
      write cfg client b
        = Except.error (SinkError.backpressure n b.topic b.partition)) ∧
    (exc.response ≠ some 429 ∨ exc.retry_after = none →
      write cfg client b = Except.error (SinkError.influx exc)) := by
  have hw := write_client_error cfg client b exc hbs hne hok hclient
  constructor
  · intro n h429 hra
    have hcond : exc.response.isSome ∧ exc.response = some 429 ∧
        exc.retry_after.isSome := by
      rw [h429, hra]
      exact ⟨rfl, rfl, rfl⟩
    rw [hw, handleWriteError, if_pos hcond, hra]
    rfl
  · intro hother
    have hcond : ¬ (exc.response.isSome ∧ exc.response = some 429 ∧
        exc.retry_after.isSome) := by
      intro ⟨h1, h2, h3⟩
      cases hother with
      | inl h => exact h h2
      | inr h => rw [h] at h3; simp at h3
    rw [hw, handleWriteError, if_neg hcond]

/-- C1 witness: a 429 failure with retry-after 30 on topic "t",
partition 2 becomes a backpressure error with exactly those fields. -/
theorem claim1_backpressure_translation_witness :
    write cfgC1 (fun _ => some excC1) batchC1
      = Except.error (SinkError.backpressure 30 ("t") 2) :=
  (claim1_backpressure_translation cfgC1 (fun _ => some excC1) batchC1 excC1
    (by decide)
    (by simp [batchC1])
    (by
      intro it hit
      simp only [batchC1, List.mem_singleton] at hit
      subst hit
      exact ⟨_, rfl⟩)
    (fun _ => rfl)).1 30 rfl rfl

/-- C2: for every record whose transformation completes, no key of the
resolved tag-key set appears in the emitted point's field set — whether
the field selection is non-empty (tag keys are excluded from it) or
empty (the tag keys were already removed from the value that becomes the
field set), even when a dynamic field-key function selects a tag key. -/
theorem claim2_tags_never_fields (cfg : SinkConfig) (t : String) (p : Int)
    (item : SinkItem) (rec : PointRecord) (v' : AList)
    (h : transformItem cfg t p item = Except.ok (rec, v'))
    (k : String) (hk : k ∈ cfg.tags_keys item.value) :
    find? rec.fields k = none := by
  obtain ⟨tg0, hpop, _, _, hfs, _⟩ := transformItem_ok cfg t p item rec v' h
  rw [fieldsStep] at hfs
  by_cases hemp : (cfg.fields_keys item.value).isEmpty = true
  · rw [if_pos hemp] at hfs
    injection hfs with hfs2
    have hv := popTagsLoop_find? (cfg.tags_keys item.value) [] item.value
      tg0 v' hpop k
    rw [← hfs2, hv, if_pos hk]
  · rw [if_neg hemp] at hfs
    have hb := buildFields_tags_none v' (cfg.tags_keys item.value)
      cfg.allow_missing_fields (cfg.fields_keys item.value) [] rec.fields
      hfs k hk
    rw [hb]
    rfl

/-- C2 witness: with tag key "a" and a dynamic field-key function
selecting ["a", "b"], the emitted field set of the concrete record holds
no "a". -/
theorem claim2_tags_never_fields_witness :
    find? [("b", PyVal.int 2)] ("a") = none :=
  claim2_tags_never_fields cfgC2 ("t") 0 itemC2
    ⟨"m", [("a", PyVal.int 1)], [("b", PyVal.int 2)], PyVal.int 7⟩
    [("b", PyVal.int 2)] rfl ("a") (by decide)

/-- C6: constructing the sink succeeds for every configuration whose
static fields_keys and tags_keys are disjoint key sets (given a valid
time precision), and fails with a ValueError before any record is
processed whenever both setters are static and their key sets
intersect. -/
theorem claim6_static_overlap_validation (m : Setter String)
    (fk tk : List String) (tkey : Option String) (prec : String)
    (amf imt : Bool) (bs : Nat)
    (hprec : prec ∈ (["ms", "ns", "us", "s"] : List String)) :
    ((∀ k ∈ fk, k ∉ tk) →
      ∃ cfg, sinkInit m (Setter.const fk) (Setter.const tk) tkey prec
        amf imt bs = Except.ok cfg) ∧
    ((∃ k, k ∈ fk ∧ k ∈ tk) →
      ∃ msg, sinkInit m (Setter.const fk) (Setter.const tk) tkey prec
        amf imt bs = Except.error msg) := by
  constructor
  · intro hdisj
    have hov : staticOverlap (Setter.const fk) (Setter.const tk) = false := by
      rw [staticOverlap, List.any_eq_false]
      intro x hx
      intro hc
      exact (hdisj x hx) (List.mem_of_elem_eq_true hc)
    rw [sinkInit, if_neg (not_not_intro hprec), if_neg (by rw [hov]; simp)]
    exact ⟨_, rfl⟩
  · intro ⟨k, hkf, hkt⟩
    have hov : staticOverlap (Setter.const fk) (Setter.const tk) = true := by
      rw [staticOverlap, List.any_eq_true]
      exact ⟨k, hkf, List.elem_eq_true_of_mem hkt⟩
    rw [sinkInit, if_neg (not_not_intro hprec), if_pos hov]
    exact ⟨_, rfl⟩

/-- C6 witness: disjoint static key sets ["a"] and ["b"] with precision
"ms" construct successfully. -/
theorem claim6_static_overlap_validation_witness :
    ∃ cfg, sinkInit (Setter.const ("m")) (Setter.const ["a"])
      (Setter.const ["b"]) none ("ms") false false 1000
        = Except.ok cfg :=
  (claim6_static_overlap_validation (Setter.const ("m")) ["a"] ["b"] none
    ("ms") false false 1000 (by decide)).1 (by decide)

/-- C8: resolving a static (non-callable) measurement, fields, or tags
setter yields a function returning that constant for every input;
resolving a callable setter returns the callable itself unchanged; hence
resolving the same static setter twice yields functions agreeing on
every input. -/
theorem claim8_setter_resolution (ms : String) (ls : List String)
    (mf : AList → String) (lf : AList → List String) (v w : AList) :
    measurement_callable (Setter.const ms) v = ms ∧
    fields_callable (Setter.const ls) v = ls ∧
    tags_callable (Setter.const ls) v = ls ∧
    measurement_callable (Setter.func mf) = mf ∧
    fields_callable (Setter.func lf) = lf ∧
    tags_callable (Setter.func lf) = lf ∧
    measurement_callable (Setter.const ms) v
      = measurement_callable (Setter.const ms) w ∧
    fields_callable (Setter.const ls) v
      = fields_callable (Setter.const ls) w ∧
    tags_callable (Setter.const ls) v = tags_callable (Setter.const ls) w :=
  ⟨rfl, rfl, rfl, rfl, rfl, rfl, rfl, rfl, rfl⟩

/-- C3 counterexample: the resolved field-key set ["a"] is non-empty and
contains "a", which is absent from the tag-extracted record value (the
tag extraction removed it), and allow_missing_fields is False — yet the
transform completes without a key error, because the comprehension's
tag-exclusion filter skips "a" before the strict missing-key access. -/
theorem claim3_counterexample :
    cfgC3.allow_missing_fields = false ∧
    cfgC3.fields_keys itemC3.value = ["a"] ∧
    popTagsLoop (cfgC3.tags_keys itemC3.value) [] itemC3.value
      = Except.ok ([("a", PyVal.int 1)], ([] : AList)) ∧
    find? ([] : AList) ("a") = none ∧
    transformItem cfgC3 ("t") 0 itemC3
      = Except.ok (⟨"m", [("a", PyVal.int 1)], [], PyVal.int 7⟩, ([] : AList)) ∧
    ¬ ∃ k2, transformItem cfgC3 ("t") 0 itemC3
      = Except.error (SinkError.keyError k2) :=
  ⟨rfl, rfl, rfl, rfl, rfl, by
    intro h
    obtain ⟨k2, hk2⟩ := h
    rw [show transformItem cfgC3 ("t") 0 itemC3
      = Except.ok (⟨"m", [("a", PyVal.int 1)], [], PyVal.int 7⟩, ([] : AList))
      from rfl] at hk2
    cases hk2⟩

/-- C3 (amended): for every record and every resolved non-empty
field-key set containing a key absent from the tag-extracted record
value *and not itself in the resolved tag-key set*: with
allow_missing_fields=False the transform fails with a key error; with
allow_missing_fields=True that key is silently omitted from the field
set and processing of the remaining keys continues. -/
theorem claim3_missing_fields (cfg : SinkConfig) (t : String) (p : Int)
    (item : SinkItem) (k : String) (tg0 v0 : AList)
    (hpop : popTagsLoop (cfg.tags_keys item.value) [] item.value
        = Except.ok (tg0, v0))
    (hne : cfg.fields_keys item.value ≠ [])
    (hk : k ∈ cfg.fields_keys item.value)
    (hkt : k ∉ cfg.tags_keys item.value)
    (habs : find? v0 k = none) :
    (cfg.allow_missing_fields = false →
      ∃ k2, transformItem cfg t p item
        = Except.error (SinkError.keyError k2)) ∧
    (cfg.allow_missing_fields = true →
      ∀ rec v', transformItem cfg t p item = Except.ok (rec, v') →
        find? rec.fields k = none) := by
  have hemp : ¬ (cfg.fields_keys item.value).isEmpty = true := by
    intro hh
    cases hl : cfg.fields_keys item.value with
    | nil => exact hne hl
    | cons a as => rw [hl] at hh; simp at hh
  constructor
  · intro ham
    obtain ⟨k2, hk2⟩ := buildFields_missing_strict v0 (cfg.tags_keys item.value)
      (cfg.fields_keys item.value) k hk habs hkt []
    refine ⟨k2, transformItem_fields_error cfg t p item tg0 v0 _ hpop ?_⟩
    rw [fieldsStep, if_neg hemp, ham]
    exact hk2
  · intro ham rec v' hok2
    obtain ⟨tg1, hpop1, _, _, hfs, _⟩ :=
      transformItem_ok cfg t p item rec v' hok2
    have hpair : (Except.ok (tg0, v0) : Except SinkError (AList × AList))
        = Except.ok (tg1, v') := hpop.symm.trans hpop1
    injection hpair with hpair2
    injection hpair2 with hpa hpb
    rw [fieldsStep, if_neg hemp, ham] at hfs
    have hskip := buildFields_missing_skip v' (cfg.tags_keys item.value)
      (cfg.fields_keys item.value) k (by rw [← hpb]; exact habs)
      [] rec.fields hfs
    rw [hskip]
    rfl

/-- C3 (amended) witness: with field keys ["x", "b"], no tags and the
strict policy, a record without "x" makes the transform fail with a key
error. -/
theorem claim3_missing_fields_witness :
    ∃ k2, transformItem cfgC3s ("t") 0 itemC3s
      = Except.error (SinkError.keyError k2) :=
  (claim3_missing_fields cfgC3s ("t") 0 itemC3s ("x") [] itemC3s.value rfl
    (by decide) (by decide) (by decide) rfl).1 rfl

/-- C4: for every record transformed under an empty resolved field-key
set, the emitted field set equals the full record value after the
resolved tag keys have been removed: every remaining key with its value,
nothing else. -/
theorem claim4_empty_fields (cfg : SinkConfig) (t : String) (p : Int)
    (item : SinkItem) (rec : PointRecord) (v' : AList)
    (h : transformItem cfg t p item = Except.ok (rec, v'))
    (hf : cfg.fields_keys item.value = []) (k : String) :
    find? rec.fields k
      = if k ∈ cfg.tags_keys item.value then none
        else find? item.value k := by
  obtain ⟨tg0, hpop, _, _, hfs, _⟩ := transformItem_ok cfg t p item rec v' h
  rw [fieldsStep, hf] at hfs
  obtain hfs2 : v' = rec.fields := by simpa using hfs
  have hv := popTagsLoop_find? (cfg.tags_keys item.value) [] item.value
    tg0 v' hpop k
  rw [← hfs2]
  exact hv

/-- C4 witness: with the static default fields_keys=() and tag key "a",
the concrete record's field set maps "b" exactly as the original value
does. -/
theorem claim4_empty_fields_witness :
    find? [("b", PyVal.int 2)] ("b")
      = if ("b" : String) ∈ cfgC4.tags_keys itemC4.value then none
        else find? itemC4.value ("b") :=
  claim4_empty_fields cfgC4 ("t") 0 itemC4
    ⟨"m", [("a", PyVal.int 1)], [("b", PyVal.int 2)], PyVal.int 7⟩
    [("b", PyVal.int 2)] rfl rfl ("b")

theorem writeChunks_all_ok (cfg : SinkConfig)
    (client : List PointRecord → Option InfluxDBError)
    (t : String) (p : Int)
    (hclient : ∀ rs, client rs = none) :
    ∀ cs : List (List SinkItem),
      (∀ c ∈ cs, ∀ it ∈ c, ∃ pr, transformItem cfg t p it = Except.ok pr) →
      ∃ trace, writeChunks cfg client t p cs = Except.ok trace ∧
        trace.map List.length = cs.map List.length := by
  intro cs
  induction cs with
  | nil => intro _; exact ⟨[], rfl, rfl⟩
  | cons c cs ih =>
    intro h
    obtain ⟨rs, hrs, hlen⟩ := transformChunk_ok cfg t p c
      (h c (List.mem_cons_self c cs))
    obtain ⟨trace, htr, hmap⟩ :=
      ih (fun c2 hc2 => h c2 (List.mem_cons_of_mem _ hc2))
    refine ⟨rs :: trace, ?_, by simp [hlen, hmap]⟩
    rw [writeChunks, hrs]
    dsimp only
    rw [hclient rs, htr]

/-- C5: `write` splits every batch into consecutive chunks of at most
batch_size records in original order, only the final chunk possibly
smaller, and issues one destination write per chunk; in particular 2500
records with chunk size 1000 give exactly the write sizes
[1000, 1000, 500]. -/
theorem claim5_chunking (cfg : SinkConfig)
    (client : List PointRecord → Option InfluxDBError) (b : SinkBatch)
    (hbs : 0 < cfg.batch_size)
    (hok : ∀ it ∈ b.items,
      ∃ pr, transformItem cfg b.topic b.partition it = Except.ok pr)
    (hclient : ∀ rs, client rs = none) :
    (∃ trace, write cfg client b = Except.ok trace ∧
      trace.map List.length = chunkLens cfg.batch_size b.items.length ∧
      (iterChunks cfg.batch_size b.items).flatten = b.items) ∧
    (∀ c ∈ chunkLens cfg.batch_size b.items.length,
      0 < c ∧ c ≤ cfg.batch_size) ∧
    (∀ i : Nat, i + 1 < (chunkLens cfg.batch_size b.items.length).length →
      (chunkLens cfg.batch_size b.items.length)[i]? = some cfg.batch_size) ∧
    chunkLens 1000 2500 = [1000, 1000, 500] := by
  obtain ⟨hflat, hmap⟩ := iterChunksAux_spec b.items.length cfg.batch_size
    b.items (Nat.le_refl _) hbs
  have hents := chunkLensAux_entries b.items.length cfg.batch_size
    b.items.length hbs (Nat.le_refl _)
  refine ⟨?_, hents.1, hents.2, by decide⟩
  obtain ⟨trace, htr, hmap2⟩ := writeChunks_all_ok cfg client b.topic
    b.partition hclient (iterChunks cfg.batch_size b.items)
    (fun c hc it hit =>
      hok it (by rw [← hflat]; exact List.mem_flatten.mpr ⟨c, hc, hit⟩))
  refine ⟨trace, htr, ?_, hflat⟩
  rw [hmap2]
  exact hmap

/-- C5 witness: a five-record batch with chunk size 2 produces a write
trace whose sizes are the chunk lengths 2, 2, 1 and whose chunks
concatenate back to the batch. -/
theorem claim5_chunking_witness :
    ∃ trace, write cfgC5 (fun _ => none) batchC5 = Except.ok trace ∧
      trace.map List.length = chunkLens cfgC5.batch_size batchC5.items.length ∧
      (iterChunks cfgC5.batch_size batchC5.items).flatten = batchC5.items :=
  (claim5_chunking cfgC5 (fun _ => none) batchC5 (by decide)
    (by
      intro it hit
      rw [show batchC5.items
        = List.replicate 5 (⟨[], PyVal.int 0, 0⟩ : SinkItem) from rfl] at hit
      rw [List.eq_of_mem_replicate hit]
      exact ⟨_, rfl⟩)
    (fun _ => rfl)).1

/-- C7: for every record processed by write, the resolved measurement,
tag-key and field-key functions are all evaluated on the record's
original, unmodified value: two configurations whose resolved functions
agree on the original value (but possibly nowhere else) transform the
record identically, and the emitted measurement is the measurement
function of the original value. -/
theorem claim7_original_value (cfg cfg2 : SinkConfig) (t : String) (p : Int)
    (item : SinkItem)
    (hm : cfg.measurement item.value = cfg2.measurement item.value)
    (ht : cfg.tags_keys item.value = cfg2.tags_keys item.value)
    (hf : cfg.fields_keys item.value = cfg2.fields_keys item.value)
    (htk : cfg.time_key = cfg2.time_key)
    (hmt : cfg.include_metadata_tags = cfg2.include_metadata_tags)
    (hmf : cfg.allow_missing_fields = cfg2.allow_missing_fields) :
    transformItem cfg t p item = transformItem cfg2 t p item ∧
    (∀ rec v', transformItem cfg t p item = Except.ok (rec, v') →
      rec.measurement = cfg.measurement item.value) := by
  constructor
  · rw [transformItem, transformItem, hm, ht, hf, htk, hmt, hmf]
  · intro rec v' h2
    obtain ⟨_, _, hm2, _, _, _⟩ := transformItem_ok cfg t p item rec v' h2
    exact hm2

/-- C7 witness: a field-key function that would return ["zz"] on the
tag-extracted value but ["b"] on the original record behaves exactly
like the static ["b"] mapping. -/
theorem claim7_original_value_witness :
    transformItem cfgC7a ("t") 0 itemC7 = transformItem cfgC7b ("t") 0 itemC7 :=
  (claim7_original_value cfgC7a cfgC7b ("t") 0 itemC7 rfl rfl (by decide)
    rfl rfl rfl).1

/-- C9 counterexample: `write` aliases (not copies) the record's value,
so after a successful transform the record's own value mapping has lost
the extracted tag key "a" and no longer equals its original value. -/
theorem claim9_counterexample :
    transformItem cfgC9 ("t") 0 itemC9
      = Except.ok (⟨"m", [("a", PyVal.int 1)], [("b", PyVal.int 2)],
          PyVal.int 7⟩, [("b", PyVal.int 2)]) ∧
    ([("b", PyVal.int 2)] : AList) ≠ itemC9.value :=
  ⟨rfl, by decide⟩

/-- C9 (amended): tag/field extraction removes the consumed keys from
the record's own value mapping in place (the working "copy" is an
alias), so after a completed write the record's value mapping equals its
original contents minus exactly the resolved tag keys. -/
theorem claim9_value_mutation (cfg : SinkConfig) (t : String) (p : Int)
    (item : SinkItem) (rec : PointRecord) (v' : AList)
    (h : transformItem cfg t p item = Except.ok (rec, v')) (k : String) :
    find? v' k
      = if k ∈ cfg.tags_keys item.value then none
        else find? item.value k := by
  obtain ⟨tg0, hpop, _, _, _, _⟩ := transformItem_ok cfg t p item rec v' h
  exact popTagsLoop_find? (cfg.tags_keys item.value) [] item.value
    tg0 v' hpop k

/-- C9 (amended) witness: after the concrete transform the record's
value mapping no longer holds the extracted tag key "a". -/
theorem claim9_value_mutation_witness :
    find? [("b", PyVal.int 2)] ("a")
      = if ("a" : String) ∈ cfgC9.tags_keys itemC9.value then none
        else find? itemC9.value ("a") :=
  claim9_value_mutation cfgC9 ("t") 0 itemC9
    ⟨"m", [("a", PyVal.int 1)], [("b", PyVal.int 2)], PyVal.int 7⟩
    [("b", PyVal.int 2)] rfl ("a")

/-- C10: with include_metadata_tags=True the reserved tags __key,
__topic and __partition are assigned after user tag extraction, so in
every emitted point they hold the record key, the batch topic and the
batch partition — overwriting any user-supplied tag of the same name. -/
theorem claim10_metadata_overwrite (cfg : SinkConfig) (t : String) (p : Int)
    (item : SinkItem) (rec : PointRecord) (v' : AList)
    (hmeta : cfg.include_metadata_tags = true)
    (h : transformItem cfg t p item = Except.ok (rec, v')) :
    find? rec.tags ("__key") = some item.key ∧
    find? rec.tags ("__topic") = some (PyVal.str t) ∧
    find? rec.tags ("__partition") = some (PyVal.int p) := by
  obtain ⟨tg0, _, _, htg, _, _⟩ := transformItem_ok cfg t p item rec v' h
  rw [htg, metaTags, if_pos hmeta]
  refine ⟨?_, ?_, ?_⟩
  · rw [find?_setKey_ne _ _ _ _ (by decide), find?_setKey_ne _ _ _ _ (by decide),
      find?_setKey_self]
  · rw [find?_setKey_ne _ _ _ _ (by decide), find?_setKey_self]
  · rw [find?_setKey_self]

/-- C10 witness: a user tag named "__key" with value "user" is
overwritten by the record key "realkey" in the emitted point. -/
theorem claim10_metadata_overwrite_witness :
    find? [("__key", PyVal.str ("realkey")), ("__topic", PyVal.str ("t")),
        ("__partition", PyVal.int 0)] ("__key")
      = some (PyVal.str ("realkey")) ∧
    find? [("__key", PyVal.str ("realkey")), ("__topic", PyVal.str ("t")),
        ("__partition", PyVal.int 0)] ("__topic")
      = some (PyVal.str ("t")) ∧
    find? [("__key", PyVal.str ("realkey")), ("__topic", PyVal.str ("t")),
        ("__partition", PyVal.int 0)] ("__partition")
      = some (PyVal.int 0) :=
  claim10_metadata_overwrite cfgC10 ("t") 0 itemC10
    ⟨"m", [("__key", PyVal.str ("realkey")), ("__topic", PyVal.str ("t")),
      ("__partition", PyVal.int 0)], [], PyVal.int 5⟩ [] rfl rfl

end InfluxSink
